import Mathlib

set_option autoImplicit false
set_option maxHeartbeats 1000000

/- Shallow embedding of src/final-project-golang-ai-v4/main.go.

   Part 1: `CsvToSlice` (main.go lines 35-69).  The Go code reads all CSV
   records with encoding/csv `Reader.ReadAll` at default settings
   (Comma = ',', no Comment, FieldsPerRecord = 0, LazyQuotes = false,
   TrimLeadingSpace = false) and then folds the records into a
   `map[string][]string` keyed by the header row. -/

/-- Error classes of the Go csv reader relevant at default settings:
`bareQuote` (a `"` inside a non-quoted field), `quote` (extraneous or
missing `"` in a quoted field), `fieldCount` (wrong number of fields:
with `FieldsPerRecord = 0` the first record fixes the expected count and
every later record must match it). -/
inductive ParseErr
  | bareQuote
  | quote
  | fieldCount
deriving DecidableEq

/-- A Go `map[string][]string`.  Embedded as an association list with at
most one entry per key; assignment replaces the entry in place.  Go map
iteration order is unspecified, so the list order of this embedding
carries no meaning and no theorem below relies on it. -/
abbrev GoMap := List (String × List String)

/-- Go map assignment `m[k] = v`. -/
def mapSet : GoMap → String → List String → GoMap
  | [], k, v => [(k, v)]
  | (k', v') :: rest, k, v =>
    if k' = k then (k, v) :: rest else (k', v') :: mapSet rest k v

/-- Go map lookup `m[k]` (`none` when the key is absent; Go then yields
the zero value `nil`, which the code below recovers with `getD []`,
matching `append(nil, x) = [x]`). -/
def mapGet : GoMap → String → Option (List String)
  | [], _ => none
  | (k', v') :: rest, k => if k' = k then some v' else mapGet rest k

/-- States of the csv record/field scanner: at a record boundary (blank
lines are skipped there), at the start of a field, inside a non-quoted
field, inside a quoted field, or just after a closing quote. -/
inductive Mode
  | recordStart
  | fieldStart
  | unquoted
  | quoted
  | postQuote
deriving DecidableEq

/-- End-of-record bookkeeping of the Go reader: with `FieldsPerRecord = 0`
the first record sets the expected field count; a later record with a
different count is `ErrFieldCount`. Returns the extended record list and
the (possibly just fixed) expected count. -/
def endRecord (recs : List (List String)) (expected : Option Nat)
    (rec : List String) : Except ParseErr (List (List String) × Nat) :=
  match expected with
  | none => .ok (recs ++ [rec], rec.length)
  | some n => if rec.length = n then .ok (recs ++ [rec], n) else .error .fieldCount

/-- Character-level scanner equivalent to the Go csv reader's
`readRecord` loop driven by `ReadAll`: `recs` are the finished records,
`expected` the field count fixed by the first record, `fields` the
finished fields of the current record, `acc` the current field text. -/
def runCsv (recs : List (List String)) (expected : Option Nat)
    (fields : List String) (acc : String) (mode : Mode) :
    List Char → Except ParseErr (List (List String))
  | [] =>
    match mode with
    | .recordStart => .ok recs
    | .quoted => .error .quote
    | _ =>
      match endRecord recs expected (fields ++ [acc]) with
      | .error e => .error e
      | .ok (recs', _) => .ok recs'
  | c :: rest =>
    match mode with
    | .recordStart =>
      if c = '\n' then runCsv recs expected [] "" .recordStart rest
      else if c = '"' then runCsv recs expected [] "" .quoted rest
      else if c = ',' then runCsv recs expected [""] "" .fieldStart rest
      else runCsv recs expected [] (String.singleton c) .unquoted rest
    | .fieldStart =>
      if c = '"' then runCsv recs expected fields "" .quoted rest
      else if c = ',' then runCsv recs expected (fields ++ [""]) "" .fieldStart rest
      else if c = '\n' then
        match endRecord recs expected (fields ++ [""]) with
        | .error e => .error e
        | .ok (recs', n) => runCsv recs' (some n) [] "" .recordStart rest
      else runCsv recs expected fields (String.singleton c) .unquoted rest
    | .unquoted =>
      if c = ',' then runCsv recs expected (fields ++ [acc]) "" .fieldStart rest
      else if c = '\n' then
        match endRecord recs expected (fields ++ [acc]) with
        | .error e => .error e
        | .ok (recs', n) => runCsv recs' (some n) [] "" .recordStart rest
      else if c = '"' then .error .bareQuote
      else runCsv recs expected fields (acc.push c) .unquoted rest
    | .quoted =>
      if c = '"' then runCsv recs expected fields acc .postQuote rest
      else runCsv recs expected fields (acc.push c) .quoted rest
    | .postQuote =>
      if c = '"' then runCsv recs expected fields (acc.push '"') .quoted rest
      else if c = ',' then runCsv recs expected (fields ++ [acc]) "" .fieldStart rest
      else if c = '\n' then
        match endRecord recs expected (fields ++ [acc]) with
        | .error e => .error e
        | .ok (recs', n) => runCsv recs' (some n) [] "" .recordStart rest
      else .error .quote

/-- Line normalisation done by the Go reader's `readLine`: every `\r\n`
pair (always line-final, since lines are cut at each `\n`) becomes `\n`,
and a lone trailing `\r` at end of input is dropped. -/
def normalizeCRLF : List Char → List Char
  | [] => []
  | '\r' :: '\n' :: rest => '\n' :: normalizeCRLF rest
  | '\r' :: [] => []
  | c :: rest => c :: normalizeCRLF rest

/-- `csv.NewReader(strings.NewReader(data)).ReadAll()` at default
settings: all records, or the first error. -/
def csvReadAll (data : String) : Except ParseErr (List (List String)) :=
  runCsv [] none [] "" .recordStart (normalizeCRLF data.data)

/-- The header-initialisation loop of `CsvToSlice`:
`for _, header := range headers: result[header] = []string` applied to
an initially empty map. -/
def initHeaders (headers : List String) : GoMap :=
  headers.foldl (fun m h => mapSet m h []) []

/-- The inner loop `for i, value := range line:
result[headers[i]] = append(result[headers[i]], value)`.  `none` models
the index-out-of-range panic Go would raise at `headers[i]` when the
line is longer than the header row. -/
def appendRow (headers : List String) (m : GoMap) (i : Nat) :
    List String → Option GoMap
  | [] => some m
  | v :: rest =>
    match headers[i]? with
    | none => none
    | some h => appendRow headers (mapSet m h ((mapGet m h).getD [] ++ [v])) (i + 1) rest

/-- The outer loop `for _, line := range lines[1:]` of `CsvToSlice`. -/
def buildTable (headers : List String) (rows : List (List String)) : Option GoMap :=
  rows.foldl (fun om row => om.bind (fun m => appendRow headers m 0 row)) (some (initHeaders headers))

/-- Outcome of `CsvToSlice`: a csv read error, a runtime panic
(index out of range), or the finished map. -/
inductive CsvResult
  | err (e : ParseErr)
  | panicked
  | ok (t : GoMap)
deriving DecidableEq

/-- `CsvToSlice` (main.go lines 35-69): read all csv records; on a read
error return it; on zero records return the empty map; otherwise record 0
is the header row, every header is initialised to an empty slice, and
every later record's values are appended position by position. -/
def CsvToSlice (data : String) : CsvResult :=
  match csvReadAll data with
  | .error e => .err e
  | .ok [] => .ok []
  | .ok (headers :: rows) =>
    match buildTable headers rows with
    | none => .panicked
    | some m => .ok m

/-- The values a single data row contributes to the column named `h`,
in position order, when scanned from position `i`: exactly the values
whose header position carries the name `h`. -/
def rowVals (headers : List String) (h : String) (i : Nat) :
    List String → List String
  | [] => []
  | v :: rest =>
    match headers[i]? with
    | none => []
    | some h' => (if h' = h then [v] else []) ++ rowVals headers h (i + 1) rest

/-- All values the data rows contribute to the column named `h`, row by
row. -/
def colValues (headers : List String) (h : String) : List (List String) → List String
  | [] => []
  | row :: rest => rowVals headers h 0 row ++ colValues headers h rest

/-- Length discipline of the records still to be produced: once the
expected field count is fixed at `n`, every further record has `n`
fields; before it is fixed, the first record produced fixes it for the
rest. -/
def CountOk : Option Nat → List (List String) → Prop
  | some n, more => ∀ r ∈ more, r.length = n
  | none, more => more = [] ∨ ∃ hd tl, more = hd :: tl ∧ ∀ r ∈ tl, r.length = hd.length

/-- `rowVals` for a row scanned from position 0, phrased as a parallel
walk over header list and row. -/
def zipVals (h : String) : List String → List String → List String
  | [], _ => []
  | _ :: _, [] => []
  | h' :: hs, v :: vs => (if h' = h then [v] else []) ++ zipVals h hs vs

/- Part 2: `ConnectAIModel` (main.go lines 71-121).  The method asserts
the payload type, marshals the `Inputs` to JSON, builds a POST request
to the fixed endpoint with the Authorization and Content-Type headers,
dispatches it through the injected `http.Client`, classifies non-200
statuses as errors without reading the body, and otherwise decodes the
body into a `Response`. -/

/-- JSON values as seen by encoding/json.  Numbers are modelled as
integers: no field of `Response` is fractional, a number with a
fractional part (not representable here) fails to unmarshal into `int`
exactly like any other wrongly-typed value, and integer values beyond
the 64-bit `int` range are representable and are rejected by
`decodeCoord`. -/
inductive Json
  | null
  | bool (b : Bool)
  | num (n : Int)
  | str (s : String)
  | arr (elems : List Json)
  | obj (fields : List (String × Json))

/-- `Response` (main.go lines 28-33). -/
structure Response where
  answer : String
  coordinates : List (List Int)
  cells : List String
  aggregator : String
deriving DecidableEq

/-- The Go zero value `Response` (empty literal). -/
def Response.zero : Response := ⟨"", [], [], ""⟩

/-- `Inputs` (main.go lines 23-26): the table and the query. -/
structure Inputs where
  table : GoMap
  query : String

/-- A Go empty-interface value passed as the payload: either an `Inputs`
value or a value of any other dynamic type (summarised by a description
string); the type assertion in `ConnectAIModel` succeeds exactly on the
first form. -/
inductive Payload
  | inputs (i : Inputs)
  | other (desc : String)

/-- One step of encoding/json's key folding (`foldName`, i.e.
`bytes.EqualFold` semantics): every character is replaced by the
smallest character of its Unicode simple-case-fold orbit.  ASCII
letters fold to their upper-case form; the only non-ASCII characters
whose fold orbit meets ASCII are the long s U+017F (the orbit of `S`)
and the Kelvin sign U+212A (the orbit of `K`), folded accordingly.
Every other character's orbit is disjoint from ASCII, so keeping it
unchanged decides fold-equality against the ASCII tags of `Response`
exactly. -/
def foldChar (c : Char) : Char :=
  if 'a' ≤ c ∧ c ≤ 'z' then Char.ofNat (c.toNat - 32)
  else if c = Char.ofNat 0x17F then 'S'
  else if c = Char.ofNat 0x212A then 'K'
  else c

/-- encoding/json's `foldName` of a JSON object key: two names match
case-insensitively exactly when their folds are equal. -/
def foldStr (s : String) : String := String.mk (s.data.map foldChar)

/-- The JSON object key that fills the struct field tagged `name`:
encoding/json matches keys case-insensitively — by fold equality —
against the tags of `Response`, and a later duplicate key overwrites
an earlier one, so the last matching key wins. -/
def lookupField : List (String × Json) → String → Option Json
  | [], _ => none
  | (k, v) :: rest, name =>
    match lookupField rest name with
    | some w => some w
    | none => if foldStr k = foldStr name then some v else none

/-- Unmarshal the JSON value found (or not found) for a `string` field:
absent and `null` both leave the zero value `""`. -/
def decodeStr (fields : List (String × Json)) (name : String) :
    Except String String :=
  match lookupField fields name with
  | none => .ok ""
  | some .null => .ok ""
  | some (.str s) => .ok s
  | some _ =>
    .error ("json: cannot unmarshal value into Go struct field Response."
      ++ name ++ " of type string")

/-- Element-wise decoding of a JSON array, failing at the first bad
element (Go unmarshals array elements in order). -/
def decodeAll {A : Type} (f : Json → Except String A) :
    List Json → Except String (List A)
  | [] => .ok []
  | e :: rest => do
    let x ← f e
    let xs ← decodeAll f rest
    .ok (x :: xs)

/-- Unmarshal one element of `Cells []string` (`null` is a no-op on the
zero element). -/
def decodeCell : Json → Except String String
  | .str s => .ok s
  | .null => .ok ""
  | _ => .error "json: cannot unmarshal value into Go value of type string"

def decodeCells (fields : List (String × Json)) : Except String (List String) :=
  match lookupField fields "cells" with
  | none => .ok []
  | some .null => .ok []
  | some (.arr es) => decodeAll decodeCell es
  | some _ =>
    .error "json: cannot unmarshal value into Go struct field Response.cells of type a string slice"

/-- Unmarshal one `int` of a coordinate pair (`null` is a no-op on the
zero element).  Go parses the number with `strconv.ParseInt` into the
64-bit `int` of the targeted platforms and reports an
UnmarshalTypeError when it overflows. -/
def decodeCoord : Json → Except String Int
  | .num n =>
    if -(2 ^ 63) ≤ n ∧ n < 2 ^ 63 then .ok n
    else .error "json: cannot unmarshal number into Go value of type int: overflows int"
  | .null => .ok 0
  | _ => .error "json: cannot unmarshal value into Go value of type int"

def decodeCoordRow : Json → Except String (List Int)
  | .arr es => decodeAll decodeCoord es
  | .null => .ok []
  | _ => .error "json: cannot unmarshal value into Go value of type an int slice"

def decodeCoords (fields : List (String × Json)) : Except String (List (List Int)) :=
  match lookupField fields "coordinates" with
  | none => .ok []
  | some .null => .ok []
  | some (.arr es) => decodeAll decodeCoordRow es
  | some _ =>
    .error "json: cannot unmarshal value into Go struct field Response.coordinates of type a slice of int slices"

/-- `json.NewDecoder(resp.Body).Decode(&result)` on a zero `Response`:
a JSON object fills the four tagged fields — absent or `null` fields
keep their zero values, unknown keys are ignored, a wrongly-typed known
field fails; a top-level `null` is a no-op leaving the zero `Response`;
any other top-level value fails.  (Go reports the first error in stream
order; field order here only picks which message is reported, never
whether decoding succeeds.) -/
def decodeResponse : Json → Except String Response
  | .null => .ok Response.zero
  | .obj fields => do
    let answer ← decodeStr fields "answer"
    let coordinates ← decodeCoords fields
    let cells ← decodeCells fields
    let aggregator ← decodeStr fields "aggregator"
    return { answer := answer, coordinates := coordinates,
             cells := cells, aggregator := aggregator }
  | _ => .error "json: cannot unmarshal value into Go value of type main.Response"

/-- `json.Marshal(inputs)`: a JSON object with the `table` and `query`
fields.  For `Inputs` (a map of string slices and a string) Go
marshalling cannot fail, so there is no error case. -/
def marshalInputs (i : Inputs) : Json :=
  .obj [("table", .obj (i.table.map (fun p => (p.1, .arr (p.2.map .str))))),
        ("query", .str i.query)]

/-- The fixed inference endpoint hardcoded in `ConnectAIModel`. -/
def apiURL : String :=
  "https://api-inference.huggingface.co/models/openai-community/gpt2"

/-- An outbound HTTP request as `ConnectAIModel` constructs it. -/
structure HttpRequest where
  method : String
  url : String
  headers : List (String × String)
  body : Json

/-- A response body as the decoder sees it: either text that is not
valid JSON, or a JSON value. -/
inductive HttpBody
  | malformed (raw : String)
  | json (v : Json)

structure HttpResponse where
  statusCode : Nat
  body : HttpBody

/-- Outcome of `c.Client.Do(req)`: transport failure or a response. -/
inductive HttpResult
  | failure (cause : String)
  | success (resp : HttpResponse)

/-- The transport capability (the `*http.Client` held by
`AIModelConnector`). -/
abbrev Transport := HttpRequest → HttpResult

/-- The error classes `ConnectAIModel` can return. -/
inductive ConnError
  | invalidPayload
  | transportError (cause : String)
  | backendError (status : Nat)
  | decodeError (msg : String)
deriving DecidableEq

/-- The Go error string of each class (`errors.New` / `fmt.Errorf`). -/
def ConnError.message : ConnError → String
  | .invalidPayload => "invalid payload type"
  | .transportError cause => cause
  | .backendError status =>
    "failed to connect to AI model with status: " ++ toString status
  | .decodeError msg => msg

/-- The request `ConnectAIModel` builds (main.go lines 87-96): POST to
the fixed URL, `Authorization: Bearer <token>` and
`Content-Type: application/json`, marshalled `Inputs` as body. -/
def buildRequest (inputs : Inputs) (token : String) : HttpRequest :=
  { method := "POST"
    url := apiURL
    headers := [("Authorization", "Bearer " ++ token),
                ("Content-Type", "application/json")]
    body := marshalInputs inputs }

/-- `ConnectAIModel` (main.go lines 71-121), instrumented with the list
of requests handed to the transport: assert the payload type, marshal,
build the request, dispatch, classify the status (`http.StatusOK` is
200), decode on success.  `json.Marshal` on `Inputs` and
`http.NewRequest` on the fixed method and URL cannot fail, so those two
error returns of the Go code are dead paths.  Every error path returns
the zero `Response` literal, mirroring `return Response, err` in Go. -/
def connectAIModelTr (transport : Transport) (payload : Payload) (token : String) :
    (Response × Option ConnError) × List HttpRequest :=
  match payload with
  | .other _ => ((Response.zero, some .invalidPayload), [])
  | .inputs inputs =>
    let req := buildRequest inputs token
    match transport req with
    | .failure cause => ((Response.zero, some (.transportError cause)), [req])
    | .success resp =>
      if resp.statusCode ≠ 200 then
        ((Response.zero, some (.backendError resp.statusCode)), [req])
      else
        match resp.body with
        | .malformed raw =>
          ((Response.zero, some (.decodeError ("invalid character in " ++ raw))), [req])
        | .json v =>
          match decodeResponse v with
          | .error msg => ((Response.zero, some (.decodeError msg)), [req])
          | .ok result => ((result, none), [req])

/-- The caller-visible `(Response, error)` pair of `ConnectAIModel`. -/
def ConnectAIModel (transport : Transport) (payload : Payload) (token : String) :
    Response × Option ConnError :=
  (connectAIModelTr transport payload token).1

/- Shape predicates: a value is acceptable for the field it would fill.
`null` is acceptable everywhere (Go treats JSON null as a no-op). -/

def isStrJson : Json → Bool
  | .str _ => true
  | .null => true
  | _ => false

def isCellJson : Json → Bool
  | .str _ => true
  | .null => true
  | _ => false

def isCoordJson : Json → Bool
  | .num n => decide (-(2 ^ 63) ≤ n ∧ n < 2 ^ 63)
  | .null => true
  | _ => false

def isCoordRowJson : Json → Bool
  | .arr es => es.all isCoordJson
  | .null => true
  | _ => false

def isCoordsJson : Json → Bool
  | .arr es => es.all isCoordRowJson
  | .null => true
  | _ => false

def isCellsJson : Json → Bool
  | .arr es => es.all isCellJson
  | .null => true
  | _ => false

/-- A JSON object member is well shaped for `Response` when, if its
folded key matches one of the four tags, its value fits that field's
type; members whose key matches no tag are always fine.  `fname` is
the already-folded key. -/
def fieldOk (fname : String) (v : Json) : Bool :=
  if fname = foldStr "answer" ∨ fname = foldStr "aggregator" then isStrJson v
  else if fname = foldStr "cells" then isCellsJson v
  else if fname = foldStr "coordinates" then isCoordsJson v
  else true

example : CsvToSlice "name,age\nAlice,30\nBob,25\n" =
    .ok [("name", ["Alice", "Bob"]), ("age", ["30", "25"])] := by decide

example : CsvToSlice "" = .ok [] := by decide

example : CsvToSlice "a,b\n" = .ok [("a", []), ("b", [])] := by decide

example : CsvToSlice "a,a\n1,2\n" = .ok [("a", ["1", "2"])] := by decide

example : CsvToSlice "a\n1,2\n" = .err .fieldCount := by decide

example : CsvToSlice "a,b\n1\n" = .err .fieldCount := by decide

example : CsvToSlice "\"x\"\"y\",b\n1,\"2\n3\"\n" =
    .ok [("x\"y", ["1"]), ("b", ["2\n3"])] := by decide

example : CsvToSlice "a\"b\n" = .err .bareQuote := by decide

example : CsvToSlice "\"ab\n" = .err .quote := by decide

example : CsvToSlice "a,b\r\n1,2\r\n" = .ok [("a", ["1"]), ("b", ["2"])] := by decide

/- Lemmas about the Go map embedding. -/

theorem mapGet_mapSet_self (m : GoMap) (k : String) (v : List String) :
    mapGet (mapSet m k v) k = some v := by
  induction m with
  | nil => simp [mapSet, mapGet]
  | cons p rest ih =>
    obtain ⟨k', v'⟩ := p
    by_cases h : k' = k
    · simp [mapSet, mapGet, h]
    · simp [mapSet, mapGet, h, ih]

theorem mapGet_mapSet_ne (m : GoMap) (k k' : String) (v : List String)
    (h : k' ≠ k) : mapGet (mapSet m k v) k' = mapGet m k' := by
  have h' : k ≠ k' := Ne.symm h
  induction m with
  | nil => simp [mapSet, mapGet, h']
  | cons p rest ih =>
    obtain ⟨a, b⟩ := p
    by_cases ha : a = k
    · subst ha
      simp [mapSet, mapGet, h']
    · simp [mapSet, mapGet, ha, ih]

theorem mapGet_foldl_init (hs : List String) (m : GoMap) (h : String) :
    mapGet (hs.foldl (fun m h => mapSet m h []) m) h =
      if h ∈ hs then some [] else mapGet m h := by
  induction hs generalizing m with
  | nil => simp
  | cons h₀ tl ih =>
    simp only [List.foldl_cons, ih, List.mem_cons]
    by_cases hmem : h ∈ tl
    · simp [hmem]
    · by_cases heq : h = h₀
      · subst heq
        simp [hmem, mapGet_mapSet_self]
      · simp [hmem, heq, mapGet_mapSet_ne _ _ _ _ heq]

theorem mapGet_initHeaders (headers : List String) (h : String) :
    mapGet (initHeaders headers) h = if h ∈ headers then some [] else none := by
  simpa [initHeaders] using mapGet_foldl_init headers [] h

theorem mem_of_getElem_some {α : Type} : ∀ (l : List α) (i : Nat) (a : α),
    l[i]? = some a → a ∈ l := by
  intro l
  induction l with
  | nil => intro i a h; simp at h
  | cons x xs ih =>
    intro i a h
    cases i with
    | zero => simp at h; simp [h]
    | succ j =>
      simp only [List.getElem?_cons_succ] at h
      exact List.mem_cons_of_mem _ (ih j a h)

theorem appendRow_mapGet_some (headers : List String) (h : String) :
    ∀ (row : List String) (m : GoMap) (i : Nat) (m' : GoMap) (l : List String),
      appendRow headers m i row = some m' → mapGet m h = some l →
      mapGet m' h = some (l ++ rowVals headers h i row) := by
  intro row
  induction row with
  | nil =>
    intro m i m' l hA hG
    simp only [appendRow, Option.some.injEq] at hA
    subst hA
    simp [rowVals, hG]
  | cons v rest ih =>
    intro m i m' l hA hG
    cases hh : headers[i]? with
    | none => simp only [appendRow, hh] at hA; exact absurd hA (by simp)
    | some h' =>
      simp only [appendRow, hh] at hA
      by_cases heq : h' = h
      · subst heq
        have hG1 : mapGet (mapSet m h' ((mapGet m h').getD [] ++ [v])) h' =
            some (l ++ [v]) := by
          rw [mapGet_mapSet_self, hG]
          rfl
        have := ih _ _ _ _ hA hG1
        rw [this]
        simp [rowVals, hh, List.append_assoc]
      · have hne : h ≠ h' := fun hc => heq hc.symm
        have hG1 : mapGet (mapSet m h' ((mapGet m h').getD [] ++ [v])) h = some l := by
          rw [mapGet_mapSet_ne _ _ _ _ hne, hG]
        have := ih _ _ _ _ hA hG1
        rw [this]
        simp [rowVals, hh, heq]

theorem appendRow_mapGet_none (headers : List String) (h : String) :
    ∀ (row : List String) (m : GoMap) (i : Nat) (m' : GoMap),
      appendRow headers m i row = some m' → mapGet m h = none →
      h ∉ headers → mapGet m' h = none := by
  intro row
  induction row with
  | nil =>
    intro m i m' hA hG _
    simp only [appendRow, Option.some.injEq] at hA
    subst hA
    exact hG
  | cons v rest ih =>
    intro m i m' hA hG hmem
    cases hh : headers[i]? with
    | none => simp only [appendRow, hh] at hA; exact absurd hA (by simp)
    | some h' =>
      simp only [appendRow, hh] at hA
      have hmem' : h' ∈ headers := mem_of_getElem_some headers i h' hh
      have hne : h ≠ h' := fun hc => hmem (hc ▸ hmem')
      have hG1 : mapGet (mapSet m h' ((mapGet m h').getD [] ++ [v])) h = none := by
        rw [mapGet_mapSet_ne _ _ _ _ hne, hG]
      exact ih _ _ _ hA hG1 hmem

theorem foldl_build_none (headers : List String) (rows : List (List String)) :
    rows.foldl (fun om row => om.bind (fun m => appendRow headers m 0 row)) none = none := by
  induction rows with
  | nil => rfl
  | cons row rest ih => simpa using ih

theorem foldl_build_some (headers : List String) (h : String) :
    ∀ (rows : List (List String)) (m t : GoMap) (l : List String),
      mapGet m h = some l →
      rows.foldl (fun om row => om.bind (fun m => appendRow headers m 0 row)) (some m) = some t →
      mapGet t h = some (l ++ colValues headers h rows) := by
  intro rows
  induction rows with
  | nil =>
    intro m t l hG hF
    simp only [List.foldl_nil, Option.some.injEq] at hF
    subst hF
    simp [colValues, hG]
  | cons row rest ih =>
    intro m t l hG hF
    simp only [List.foldl_cons] at hF
    have hF₂ : rest.foldl (fun om row => om.bind (fun m => appendRow headers m 0 row))
        (appendRow headers m 0 row) = some t := hF
    cases hA : appendRow headers m 0 row with
    | none =>
      rw [hA, foldl_build_none] at hF₂
      exact absurd hF₂ (by simp)
    | some m₁ =>
      rw [hA] at hF₂
      have hG1 := appendRow_mapGet_some headers h row m 0 m₁ l hA hG
      have := ih m₁ t _ hG1 hF₂
      rw [this]
      simp [colValues, List.append_assoc]

theorem foldl_build_get_none (headers : List String) (h : String) :
    ∀ (rows : List (List String)) (m t : GoMap),
      mapGet m h = none → h ∉ headers →
      rows.foldl (fun om row => om.bind (fun m => appendRow headers m 0 row)) (some m) = some t →
      mapGet t h = none := by
  intro rows
  induction rows with
  | nil =>
    intro m t hG _ hF
    simp only [List.foldl_nil, Option.some.injEq] at hF
    subst hF
    exact hG
  | cons row rest ih =>
    intro m t hG hmem hF
    simp only [List.foldl_cons] at hF
    have hF₂ : rest.foldl (fun om row => om.bind (fun m => appendRow headers m 0 row))
        (appendRow headers m 0 row) = some t := hF
    cases hA : appendRow headers m 0 row with
    | none =>
      rw [hA, foldl_build_none] at hF₂
      exact absurd hF₂ (by simp)
    | some m₁ =>
      rw [hA] at hF₂
      have hG1 := appendRow_mapGet_none headers h row m 0 m₁ hA hG hmem
      exact ih m₁ t hG1 hmem hF₂

/-- Functional characterisation of the table-building loops of
`CsvToSlice`: the finished map holds, for each header name, exactly the
values contributed row by row at the positions bearing that name, and
holds nothing for other names. -/
theorem buildTable_mapGet (headers : List String) (rows : List (List String))
    (t : GoMap) (h : String) (hb : buildTable headers rows = some t) :
    mapGet t h = if h ∈ headers then some (colValues headers h rows) else none := by
  unfold buildTable at hb
  by_cases hmem : h ∈ headers
  · have h0 : mapGet (initHeaders headers) h = some [] := by
      rw [mapGet_initHeaders]
      simp [hmem]
    have := foldl_build_some headers h rows _ t [] h0 hb
    simpa [hmem] using this
  · have h0 : mapGet (initHeaders headers) h = none := by
      rw [mapGet_initHeaders]
      simp [hmem]
    have := foldl_build_get_none headers h rows _ t h0 hmem hb
    simpa [hmem] using this

theorem appendRow_isSome (headers : List String) :
    ∀ (row : List String) (m : GoMap) (i : Nat),
      i + row.length ≤ headers.length →
      ∃ m', appendRow headers m i row = some m' := by
  intro row
  induction row with
  | nil => intro m i _; exact ⟨m, rfl⟩
  | cons v rest ih =>
    intro m i hlen
    have hi : i < headers.length := by
      simp only [List.length_cons] at hlen
      omega
    have hget : headers[i]? = some headers[i] := List.getElem?_eq_getElem hi
    obtain ⟨m', hm'⟩ := ih
      (mapSet m headers[i] ((mapGet m headers[i]).getD [] ++ [v])) (i + 1)
      (by simp only [List.length_cons] at hlen; omega)
    refine ⟨m', ?_⟩
    simp only [appendRow, hget]
    exact hm'

theorem foldl_build_isSome (headers : List String) :
    ∀ (rows : List (List String)) (m : GoMap),
      (∀ row ∈ rows, row.length = headers.length) →
      ∃ t, rows.foldl (fun om row => om.bind (fun m => appendRow headers m 0 row))
        (some m) = some t := by
  intro rows
  induction rows with
  | nil => intro m _; exact ⟨m, rfl⟩
  | cons row rest ih =>
    intro m hall
    have hrow : row.length = headers.length := hall row (by simp)
    obtain ⟨m₁, hm₁⟩ := appendRow_isSome headers row m 0 (by omega)
    obtain ⟨t, ht⟩ := ih m₁ (fun r hr => hall r (by simp [hr]))
    refine ⟨t, ?_⟩
    simp only [List.foldl_cons]
    have hstep : (some m).bind (fun m => appendRow headers m 0 row) = some m₁ := by
      simpa using hm₁
    rw [hstep]
    exact ht

theorem buildTable_isSome (headers : List String) (rows : List (List String))
    (hall : ∀ row ∈ rows, row.length = headers.length) :
    ∃ t, buildTable headers rows = some t := by
  unfold buildTable
  exact foldl_build_isSome headers rows (initHeaders headers) hall

theorem countOk_nil (expected : Option Nat) : CountOk expected [] := by
  cases expected with
  | none => exact Or.inl rfl
  | some n => intro r hr; exact absurd hr (by simp)

theorem countOk_of_cons (expected : Option Nat) (rec : List String)
    (more : List (List String)) (hexp : ∀ n, expected = some n → rec.length = n)
    (hall : ∀ r ∈ more, r.length = rec.length) : CountOk expected (rec :: more) := by
  cases expected with
  | none => exact Or.inr ⟨rec, more, rfl, hall⟩
  | some n =>
    intro r hr
    rcases List.mem_cons.mp hr with hr | hr
    · rw [hr]; exact hexp n rfl
    · exact (hall r hr).trans (hexp n rfl)

theorem endRecord_ok_inv (recs : List (List String)) (expected : Option Nat)
    (rec : List String) (recs' : List (List String)) (n' : Nat)
    (hE : endRecord recs expected rec = .ok (recs', n')) :
    recs' = recs ++ [rec] ∧ n' = rec.length ∧
      ∀ n, expected = some n → rec.length = n := by
  cases expected with
  | none =>
    simp only [endRecord, Except.ok.injEq, Prod.mk.injEq] at hE
    exact ⟨hE.1.symm, hE.2.symm, by simp⟩
  | some n =>
    simp only [endRecord] at hE
    by_cases hl : rec.length = n
    · rw [if_pos hl] at hE
      simp only [Except.ok.injEq, Prod.mk.injEq] at hE
      refine ⟨hE.1.symm, ?_, ?_⟩
      · rw [← hE.2, ← hl]
      · intro n₀ hn₀
        rw [Option.some.injEq] at hn₀
        rw [hl, hn₀]
    · rw [if_neg hl] at hE
      exact absurd hE (by simp)

theorem records_of_endRecord (recs : List (List String)) (expected : Option Nat)
    (rec : List String) (recs' : List (List String)) (n' : Nat)
    (hE : endRecord recs expected rec = .ok (recs', n'))
    (more : List (List String)) (hall : ∀ r ∈ more, r.length = n') :
    recs' ++ more = recs ++ (rec :: more) ∧ CountOk expected (rec :: more) := by
  obtain ⟨hrecs, hn, hexp⟩ := endRecord_ok_inv recs expected rec recs' n' hE
  constructor
  · rw [hrecs]; simp
  · exact countOk_of_cons expected rec more hexp
      (fun r hr => (hall r hr).trans hn)

/-- Every successful run of the scanner extends the already-finished
records by records obeying the field-count discipline. -/
theorem runCsv_records :
    ∀ (cs : List Char) (recs : List (List String)) (expected : Option Nat)
      (fields : List String) (acc : String) (mode : Mode)
      (out : List (List String)),
      runCsv recs expected fields acc mode cs = .ok out →
      ∃ more, out = recs ++ more ∧ CountOk expected more := by
  intro cs
  induction cs with
  | nil =>
    intro recs expected fields acc mode out hrun
    cases mode with
    | recordStart =>
      simp only [runCsv, Except.ok.injEq] at hrun
      exact ⟨[], by simp [← hrun], countOk_nil expected⟩
    | quoted =>
      simp only [runCsv] at hrun
      exact absurd hrun (by simp)
    | fieldStart =>
      simp only [runCsv] at hrun
      cases hE : endRecord recs expected (fields ++ [acc]) with
      | error e => rw [hE] at hrun; exact absurd hrun (by simp)
      | ok p =>
        obtain ⟨recs', n'⟩ := p
        rw [hE] at hrun
        simp only [Except.ok.injEq] at hrun
        obtain ⟨heq, hcount⟩ :=
          records_of_endRecord recs expected _ recs' n' hE [] (by simp)
        exact ⟨_, by rw [← hrun]; simpa using heq, hcount⟩
    | unquoted =>
      simp only [runCsv] at hrun
      cases hE : endRecord recs expected (fields ++ [acc]) with
      | error e => rw [hE] at hrun; exact absurd hrun (by simp)
      | ok p =>
        obtain ⟨recs', n'⟩ := p
        rw [hE] at hrun
        simp only [Except.ok.injEq] at hrun
        obtain ⟨heq, hcount⟩ :=
          records_of_endRecord recs expected _ recs' n' hE [] (by simp)
        exact ⟨_, by rw [← hrun]; simpa using heq, hcount⟩
    | postQuote =>
      simp only [runCsv] at hrun
      cases hE : endRecord recs expected (fields ++ [acc]) with
      | error e => rw [hE] at hrun; exact absurd hrun (by simp)
      | ok p =>
        obtain ⟨recs', n'⟩ := p
        rw [hE] at hrun
        simp only [Except.ok.injEq] at hrun
        obtain ⟨heq, hcount⟩ :=
          records_of_endRecord recs expected _ recs' n' hE [] (by simp)
        exact ⟨_, by rw [← hrun]; simpa using heq, hcount⟩
  | cons c rest ih =>
    intro recs expected fields acc mode out hrun
    cases mode with
    | recordStart =>
      simp only [runCsv] at hrun
      by_cases h1 : c = '\n'
      · rw [if_pos h1] at hrun; exact ih _ _ _ _ _ _ hrun
      · rw [if_neg h1] at hrun
        by_cases h2 : c = '"'
        · rw [if_pos h2] at hrun; exact ih _ _ _ _ _ _ hrun
        · rw [if_neg h2] at hrun
          by_cases h3 : c = ','
          · rw [if_pos h3] at hrun; exact ih _ _ _ _ _ _ hrun
          · rw [if_neg h3] at hrun; exact ih _ _ _ _ _ _ hrun
    | fieldStart =>
      simp only [runCsv] at hrun
      by_cases h1 : c = '"'
      · rw [if_pos h1] at hrun; exact ih _ _ _ _ _ _ hrun
      · rw [if_neg h1] at hrun
        by_cases h2 : c = ','
        · rw [if_pos h2] at hrun; exact ih _ _ _ _ _ _ hrun
        · rw [if_neg h2] at hrun
          by_cases h3 : c = '\n'
          · rw [if_pos h3] at hrun
            cases hE : endRecord recs expected (fields ++ [""]) with
            | error e => rw [hE] at hrun; exact absurd hrun (by simp)
            | ok p =>
              obtain ⟨recs', n'⟩ := p
              rw [hE] at hrun
              obtain ⟨more', hout, hco⟩ := ih _ _ _ _ _ _ hrun
              have hall : ∀ r ∈ more', r.length = n' := hco
              obtain ⟨heq, hcount⟩ :=
                records_of_endRecord recs expected _ recs' n' hE more' hall
              exact ⟨_, by rw [hout, heq], hcount⟩
          · rw [if_neg h3] at hrun; exact ih _ _ _ _ _ _ hrun
    | unquoted =>
      simp only [runCsv] at hrun
      by_cases h1 : c = ','
      · rw [if_pos h1] at hrun; exact ih _ _ _ _ _ _ hrun
      · rw [if_neg h1] at hrun
        by_cases h2 : c = '\n'
        · rw [if_pos h2] at hrun
          cases hE : endRecord recs expected (fields ++ [acc]) with
          | error e => rw [hE] at hrun; exact absurd hrun (by simp)
          | ok p =>
            obtain ⟨recs', n'⟩ := p
            rw [hE] at hrun
            obtain ⟨more', hout, hco⟩ := ih _ _ _ _ _ _ hrun
            have hall : ∀ r ∈ more', r.length = n' := hco
            obtain ⟨heq, hcount⟩ :=
              records_of_endRecord recs expected _ recs' n' hE more' hall
            exact ⟨_, by rw [hout, heq], hcount⟩
        · rw [if_neg h2] at hrun
          by_cases h3 : c = '"'
          · rw [if_pos h3] at hrun; exact absurd hrun (by simp)
          · rw [if_neg h3] at hrun; exact ih _ _ _ _ _ _ hrun
    | quoted =>
      simp only [runCsv] at hrun
      by_cases h1 : c = '"'
      · rw [if_pos h1] at hrun; exact ih _ _ _ _ _ _ hrun
      · rw [if_neg h1] at hrun; exact ih _ _ _ _ _ _ hrun
    | postQuote =>
      simp only [runCsv] at hrun
      by_cases h1 : c = '"'
      · rw [if_pos h1] at hrun; exact ih _ _ _ _ _ _ hrun
      · rw [if_neg h1] at hrun
        by_cases h2 : c = ','
        · rw [if_pos h2] at hrun; exact ih _ _ _ _ _ _ hrun
        · rw [if_neg h2] at hrun
          by_cases h3 : c = '\n'
          · rw [if_pos h3] at hrun
            cases hE : endRecord recs expected (fields ++ [acc]) with
            | error e => rw [hE] at hrun; exact absurd hrun (by simp)
            | ok p =>
              obtain ⟨recs', n'⟩ := p
              rw [hE] at hrun
              obtain ⟨more', hout, hco⟩ := ih _ _ _ _ _ _ hrun
              have hall : ∀ r ∈ more', r.length = n' := hco
              obtain ⟨heq, hcount⟩ :=
                records_of_endRecord recs expected _ recs' n' hE more' hall
              exact ⟨_, by rw [hout, heq], hcount⟩
          · rw [if_neg h3] at hrun; exact absurd hrun (by simp)

/-- Records accepted by the csv reader are uniform: every data record
has exactly as many fields as the header record (`FieldsPerRecord`
discipline of the Go reader). -/
theorem csvReadAll_lengths (data : String) (headers : List String)
    (rows : List (List String)) (h : csvReadAll data = .ok (headers :: rows)) :
    ∀ row ∈ rows, row.length = headers.length := by
  obtain ⟨more, hout, hco⟩ := runCsv_records _ [] none [] "" .recordStart _ h
  simp only [List.nil_append] at hout
  have hco' : more = [] ∨ ∃ hd tl, more = hd :: tl ∧ ∀ r ∈ tl, r.length = hd.length := hco
  rcases hco' with hnil | ⟨hd, tl, heq, hall⟩
  · rw [hnil] at hout; exact absurd hout (by simp)
  · rw [heq] at hout
    simp only [List.cons.injEq] at hout
    intro row hr
    rw [hout.1]
    exact hall row (hout.2 ▸ hr)

theorem rowVals_shift (h : String) :
    ∀ (row pre suf : List String),
      rowVals (pre ++ suf) h pre.length row = zipVals h suf row := by
  intro row
  induction row with
  | nil => intro pre suf; cases suf <;> rfl
  | cons v vs ih =>
    intro pre suf
    cases suf with
    | nil =>
      have hget : (pre ++ ([] : List String))[pre.length]? = none := by simp
      simp [rowVals, hget, zipVals]
    | cons h' suf' =>
      have hget : (pre ++ h' :: suf')[pre.length]? = some h' := by
        rw [List.getElem?_append_right (le_refl pre.length)]
        simp
      simp only [rowVals, hget]
      have hstep := ih (pre ++ [h']) suf'
      simp only [List.append_assoc, List.singleton_append, List.length_append,
        List.length_singleton] at hstep
      rw [zipVals, hstep]

theorem rowVals_eq_zipVals (headers : List String) (h : String) (row : List String) :
    rowVals headers h 0 row = zipVals h headers row := by
  simpa using rowVals_shift h row [] headers

theorem zipVals_length (h : String) :
    ∀ (hs vs : List String), vs.length = hs.length →
      (zipVals h hs vs).length = hs.count h := by
  intro hs
  induction hs with
  | nil =>
    intro vs hv
    cases vs with
    | nil => simp [zipVals]
    | cons v vs' => simp at hv
  | cons h' hs' ih =>
    intro vs hv
    cases vs with
    | nil => simp at hv
    | cons v vs' =>
      simp only [List.length_cons] at hv
      have hrec := ih vs' (by omega)
      rw [zipVals, List.length_append, hrec, List.count_cons]
      simp only [beq_iff_eq]
      by_cases he : h' = h
      · rw [if_pos he, if_pos he]
        simp only [List.length_singleton]
        omega
      · rw [if_neg he, if_neg he]
        simp only [List.length_nil]
        omega

theorem colValues_length (headers : List String) (h : String) :
    ∀ rows : List (List String),
      (∀ row ∈ rows, row.length = headers.length) →
      (colValues headers h rows).length = rows.length * headers.count h := by
  intro rows
  induction rows with
  | nil => intro _; simp [colValues]
  | cons row rest ih =>
    intro hall
    simp only [colValues, List.length_append]
    rw [rowVals_eq_zipVals, zipVals_length h headers row (hall row (by simp)),
      ih (fun r hr => hall r (by simp [hr]))]
    simp only [List.length_cons]
    ring

theorem csvToSlice_ok_buildTable (data : String) (headers : List String)
    (rows : List (List String)) (t : GoMap)
    (hp : csvReadAll data = .ok (headers :: rows))
    (ht : CsvToSlice data = CsvResult.ok t) :
    buildTable headers rows = some t := by
  simp only [CsvToSlice, hp] at ht
  cases hb : buildTable headers rows with
  | none => rw [hb] at ht; exact absurd ht (by simp)
  | some m =>
    rw [hb] at ht
    simp only [CsvResult.ok.injEq] at ht
    rw [ht]

/-- C1: an input whose csv decoding yields zero records gives the empty
map; but a header-only input does NOT give an empty map — it gives one
key per distinct header name, each bound to an empty value list (the
header-initialisation loop runs even when there are no data rows). This
is the amended form of the claim. -/
theorem csvToSlice_zero_records_empty (data : String) (headers : List String) :
    (csvReadAll data = .ok [] → CsvToSlice data = CsvResult.ok []) ∧
    (csvReadAll data = .ok [headers] →
      CsvToSlice data = CsvResult.ok (initHeaders headers) ∧
      ∀ h, mapGet (initHeaders headers) h =
        if h ∈ headers then some [] else none) := by
  constructor
  · intro hz
    simp [CsvToSlice, hz]
  · intro hh
    refine ⟨?_, fun h => mapGet_initHeaders headers h⟩
    simp [CsvToSlice, hh, buildTable]

/-- C1 counterexample: the header-only input `"a,b\n"` yields a map with
the header-derived keys `"a"` and `"b"` (each bound to an empty list),
not the empty mapping the claim asserts. -/
theorem csvToSlice_header_only_cex :
    CsvToSlice "a,b\n" = CsvResult.ok [("a", []), ("b", [])] ∧
    CsvToSlice "a,b\n" ≠ CsvResult.ok [] := by
  constructor
  · decide
  · decide

theorem csvToSlice_zero_records_empty_witness :
    CsvToSlice "" = CsvResult.ok [] ∧
    CsvToSlice "a,b\n" = CsvResult.ok (initHeaders ["a", "b"]) :=
  ⟨(csvToSlice_zero_records_empty "" []).1 rfl,
   ((csvToSlice_zero_records_empty "a,b\n" ["a", "b"]).2 rfl).1⟩

/-- C2 (amended): duplicate header names collapse to a single key, but
the values of all duplicate positions are COMBINED into that key's list
(for each row, the value at every position bearing the name is appended
in position order); a later occurrence does not overwrite an earlier
one.  `colValues` makes this exact for every accepted input. -/
theorem csvToSlice_dup_headers_combine (data : String) (headers : List String)
    (rows : List (List String)) (t : GoMap) (h : String)
    (hp : csvReadAll data = .ok (headers :: rows))
    (ht : CsvToSlice data = CsvResult.ok t) :
    mapGet t h = if h ∈ headers then some (colValues headers h rows) else none :=
  buildTable_mapGet headers rows t h (csvToSlice_ok_buildTable data headers rows t hp ht)

/-- C2 counterexample: for input `"a,a\n1,2\n"` the single column `"a"`
holds BOTH values `["1", "2"]`; under the claimed last-write-wins
semantics it would hold only `["2"]`. -/
theorem csvToSlice_dup_headers_cex :
    CsvToSlice "a,a\n1,2\n" = CsvResult.ok [("a", ["1", "2"])] ∧
    mapGet [("a", ["1", "2"])] "a" ≠ some ["2"] := by
  constructor
  · decide
  · decide

theorem csvToSlice_dup_headers_combine_witness :
    mapGet [("a", ["1", "2"])] "a" =
      if "a" ∈ ["a", "a"] then some (colValues ["a", "a"] "a" [["1", "2"]]) else none :=
  csvToSlice_dup_headers_combine "a,a\n1,2\n" ["a", "a"] [["1", "2"]]
    [("a", ["1", "2"])] "a" rfl rfl

/-- C3 (amended): for every accepted input, the column named `h` has
length `N * k` where `N` is the number of data rows and `k` the number
of header positions named `h`; when the header names are pairwise
distinct this is exactly `N`, as the claim states.  With duplicate
headers the claim's plain `N` fails (see the counterexample). -/
theorem csvToSlice_column_length (data : String) (headers : List String)
    (rows : List (List String)) (t : GoMap) (h : String)
    (hp : csvReadAll data = .ok (headers :: rows))
    (ht : CsvToSlice data = CsvResult.ok t)
    (hmem : h ∈ headers) :
    mapGet t h = some (colValues headers h rows) ∧
    (colValues headers h rows).length = rows.length * headers.count h ∧
    (headers.Nodup → (colValues headers h rows).length = rows.length) := by
  have hb := csvToSlice_ok_buildTable data headers rows t hp ht
  have hlen := csvReadAll_lengths data headers rows hp
  have hc := buildTable_mapGet headers rows t h hb
  rw [if_pos hmem] at hc
  have hcl := colValues_length headers h rows hlen
  refine ⟨hc, hcl, fun hnd => ?_⟩
  rw [hcl, List.count_eq_one_of_mem hnd hmem, Nat.mul_one]

/-- C3 counterexample: input `"a,a\n1,2\n"` is accepted with one data
row (`N = 1`), yet the column `"a"` has two values — its length is not
`N`. -/
theorem csvToSlice_column_length_cex :
    csvReadAll "a,a\n1,2\n" = Except.ok [["a", "a"], ["1", "2"]] ∧
    CsvToSlice "a,a\n1,2\n" = CsvResult.ok [("a", ["1", "2"])] ∧
    mapGet [("a", ["1", "2"])] "a" = some ["1", "2"] ∧
    (["1", "2"] : List String).length ≠ ([["1", "2"]] : List (List String)).length := by
  refine ⟨rfl, by decide, by decide, by decide⟩

theorem csvToSlice_column_length_witness :
    mapGet [("a", ["1"]), ("b", ["2"])] "a" =
      some (colValues ["a", "b"] "a" [["1", "2"]]) ∧
    (colValues ["a", "b"] "a" [["1", "2"]]).length = 1 :=
  ⟨(csvToSlice_column_length "a,b\n1,2\n" ["a", "b"] [["1", "2"]]
      [("a", ["1"]), ("b", ["2"])] "a" rfl rfl (by decide)).1,
   by
    have h2 := (csvToSlice_column_length "a,b\n1,2\n" ["a", "b"] [["1", "2"]]
      [("a", ["1"]), ("b", ["2"])] "a" rfl rfl (by decide)).2.2 (by decide)
    simpa using h2⟩

/-- C4 (amended): a data row with a different number of values than the
header row (in particular, with MORE values) makes the csv reader fail
with a field-count error, so `CsvToSlice` returns that error rather than
discarding the extras; every accepted record has exactly the header
length, and in consequence the building loop never indexes the header
out of bounds — `CsvToSlice` never panics. -/
theorem csvToSlice_ragged_guard (data : String) :
    (∀ headers rows, csvReadAll data = Except.ok (headers :: rows) →
      ∀ row ∈ rows, row.length = headers.length) ∧
    CsvToSlice data ≠ CsvResult.panicked := by
  constructor
  · intro headers rows hp
    exact csvReadAll_lengths data headers rows hp
  · cases hE : csvReadAll data with
    | error e => simp [CsvToSlice, hE]
    | ok lines =>
      cases lines with
      | nil => simp [CsvToSlice, hE]
      | cons headers rows =>
        have hlen := csvReadAll_lengths data headers rows hE
        obtain ⟨t, ht⟩ := buildTable_isSome headers rows hlen
        simp [CsvToSlice, hE, ht]

/-- C4 counterexample: for input `"a\n1,2\n"` (one header, a data row
with two values) `CsvToSlice` returns a field-count error; it does not
return the table `[("a", ["1"])]` the discard-extras claim predicts. -/
theorem csvToSlice_ragged_cex :
    CsvToSlice "a\n1,2\n" = CsvResult.err ParseErr.fieldCount ∧
    CsvToSlice "a\n1,2\n" ≠ CsvResult.ok [("a", ["1"])] := by
  constructor
  · decide
  · decide

theorem csvToSlice_ragged_guard_witness :
    (["1", "2"] : List String).length = (["a", "b"] : List String).length ∧
    CsvToSlice "a,b\n1,2\n" ≠ CsvResult.panicked :=
  ⟨(csvToSlice_ragged_guard "a,b\n1,2\n").1 ["a", "b"] [["1", "2"]] rfl
    ["1", "2"] (by decide),
   (csvToSlice_ragged_guard "a,b\n1,2\n").2⟩

example : decodeResponse (.obj [("answer", .str "27.5"),
    ("coordinates", .arr [.arr [.num 1, .num 1], .arr [.num 2, .num 1]]),
    ("cells", .arr [.str "30", .str "25"]), ("aggregator", .str "AVERAGE")]) =
    .ok ⟨"27.5", [[1, 1], [2, 1]], ["30", "25"], "AVERAGE"⟩ := by rfl

example : decodeResponse (.obj [("answer", .str "27.5")]) =
    .ok ⟨"27.5", [], [], ""⟩ := by rfl

example : decodeResponse (.obj []) = .ok Response.zero := by rfl

example : decodeResponse (.obj [("answer", .num 3)]) =
    .error "json: cannot unmarshal value into Go struct field Response.answer of type string" := by rfl

example : decodeResponse (.obj [("ANSWER", .str "x"), ("Aggregator", .str "SUM")]) =
    .ok ⟨"x", [], [], "SUM"⟩ := by rfl

example : decodeResponse (.obj [("anſwer", .num 3)]) =
    .error "json: cannot unmarshal value into Go struct field Response.answer of type string" := by rfl

example : decodeCoord (.num (2 ^ 63)) =
    .error "json: cannot unmarshal number into Go value of type int: overflows int" := by rfl

example : decodeCoord (.num (-(2 ^ 63))) = .ok (-(2 ^ 63)) := by rfl

example : fieldOk (foldStr "anſwer") (Json.num 3) = false := by rfl

example : fieldOk (foldStr "coordinates") (Json.arr [Json.arr [Json.num (2 ^ 63)]]) = false := by rfl

theorem lookupField_mem : ∀ (fields : List (String × Json)) (name : String) (v : Json),
    lookupField fields name = some v →
    ∃ k, (k, v) ∈ fields ∧ foldStr k = foldStr name := by
  intro fields
  induction fields with
  | nil => intro name v h; simp [lookupField] at h
  | cons p rest ih =>
    intro name v h
    obtain ⟨k, w⟩ := p
    simp only [lookupField] at h
    cases hrec : lookupField rest name with
    | some w' =>
      rw [hrec] at h
      simp only [Option.some.injEq] at h
      subst h
      obtain ⟨k', hk', hlow⟩ := ih name w' hrec
      exact ⟨k', by simp [hk'], hlow⟩
    | none =>
      rw [hrec] at h
      by_cases hk : foldStr k = foldStr name
      · rw [if_pos hk] at h
        simp only [Option.some.injEq] at h
        subst h
        exact ⟨k, by simp, hk⟩
      · rw [if_neg hk] at h
        exact absurd h (by simp)

theorem lookupField_none (name : String) : ∀ fields : List (String × Json),
    (∀ p ∈ fields, foldStr (Prod.fst p) ≠ foldStr name) →
    lookupField fields name = none := by
  intro fields
  induction fields with
  | nil => intro _; rfl
  | cons p rest ih =>
    intro hall
    obtain ⟨k, w⟩ := p
    simp only [lookupField]
    rw [ih (fun q hq => hall q (by simp [hq]))]
    rw [if_neg (hall (k, w) (by simp))]

theorem decodeStr_ok (fields : List (String × Json)) (name : String)
    (hname : name = "answer" ∨ name = "aggregator")
    (hok : ∀ p ∈ fields, fieldOk (foldStr (Prod.fst p)) (Prod.snd p) = true) :
    ∃ s, decodeStr fields name = .ok s := by
  cases hL : lookupField fields name with
  | none => exact ⟨"", by simp [decodeStr, hL]⟩
  | some v =>
    obtain ⟨k, hmem, hlow⟩ := lookupField_mem fields name v hL
    have hfo : fieldOk (foldStr name) v = true := by
      have := hok (k, v) hmem
      rwa [hlow] at this
    have hstr : isStrJson v = true := by
      unfold fieldOk at hfo
      rcases hname with h | h <;> subst h
      · rwa [if_pos (Or.inl rfl)] at hfo
      · rwa [if_pos (Or.inr rfl)] at hfo
    cases v with
    | str s => exact ⟨s, by simp [decodeStr, hL]⟩
    | null => exact ⟨"", by simp [decodeStr, hL]⟩
    | bool b => simp [isStrJson] at hstr
    | num n => simp [isStrJson] at hstr
    | arr es => simp [isStrJson] at hstr
    | obj fs => simp [isStrJson] at hstr

theorem decodeAll_cell_ok : ∀ es : List Json, es.all isCellJson = true →
    ∃ l, decodeAll decodeCell es = Except.ok l := by
  intro es
  induction es with
  | nil => intro _; exact ⟨[], rfl⟩
  | cons e es' ih =>
    intro hall
    simp only [List.all_cons, Bool.and_eq_true] at hall
    obtain ⟨l, hl⟩ := ih hall.2
    have he : ∃ s, decodeCell e = .ok s := by
      have h1 := hall.1
      cases e with
      | str s => exact ⟨s, rfl⟩
      | null => exact ⟨"", rfl⟩
      | bool b => simp [isCellJson] at h1
      | num n => simp [isCellJson] at h1
      | arr es => simp [isCellJson] at h1
      | obj fs => simp [isCellJson] at h1
    obtain ⟨s, hs⟩ := he
    refine ⟨s :: l, ?_⟩
    simp only [decodeAll, hs, hl]
    rfl

theorem decodeAll_coord_ok : ∀ es : List Json, es.all isCoordJson = true →
    ∃ l, decodeAll decodeCoord es = Except.ok l := by
  intro es
  induction es with
  | nil => intro _; exact ⟨[], rfl⟩
  | cons e es' ih =>
    intro hall
    simp only [List.all_cons, Bool.and_eq_true] at hall
    obtain ⟨l, hl⟩ := ih hall.2
    have he : ∃ n, decodeCoord e = .ok n := by
      have h1 := hall.1
      cases e with
      | num n =>
        simp only [isCoordJson, decide_eq_true_eq] at h1
        refine ⟨n, ?_⟩
        simp only [decodeCoord]
        rw [if_pos h1]
      | null => exact ⟨0, rfl⟩
      | bool b => simp [isCoordJson] at h1
      | str s => simp [isCoordJson] at h1
      | arr es => simp [isCoordJson] at h1
      | obj fs => simp [isCoordJson] at h1
    obtain ⟨n, hn⟩ := he
    refine ⟨n :: l, ?_⟩
    simp only [decodeAll, hn, hl]
    rfl

theorem decodeAll_coordRow_ok : ∀ es : List Json, es.all isCoordRowJson = true →
    ∃ l, decodeAll decodeCoordRow es = Except.ok l := by
  intro es
  induction es with
  | nil => intro _; exact ⟨[], rfl⟩
  | cons e es' ih =>
    intro hall
    simp only [List.all_cons, Bool.and_eq_true] at hall
    obtain ⟨l, hl⟩ := ih hall.2
    have he : ∃ r, decodeCoordRow e = .ok r := by
      have h1 := hall.1
      cases e with
      | arr inner =>
        obtain ⟨r, hr⟩ := decodeAll_coord_ok inner (by simpa [isCoordRowJson] using h1)
        exact ⟨r, by simp [decodeCoordRow, hr]⟩
      | null => exact ⟨[], rfl⟩
      | bool b => simp [isCoordRowJson] at h1
      | str s => simp [isCoordRowJson] at h1
      | num n => simp [isCoordRowJson] at h1
      | obj fs => simp [isCoordRowJson] at h1
    obtain ⟨r, hr⟩ := he
    refine ⟨r :: l, ?_⟩
    simp only [decodeAll, hr, hl]
    rfl

theorem decodeCells_ok (fields : List (String × Json))
    (hok : ∀ p ∈ fields, fieldOk (foldStr (Prod.fst p)) (Prod.snd p) = true) :
    ∃ l, decodeCells fields = .ok l := by
  cases hL : lookupField fields "cells" with
  | none => exact ⟨[], by simp [decodeCells, hL]⟩
  | some v =>
    obtain ⟨k, hmem, hlow⟩ := lookupField_mem fields "cells" v hL
    have hfo : fieldOk (foldStr "cells") v = true := by
      have := hok (k, v) hmem
      rwa [hlow] at this
    have hcv : isCellsJson v = true := by
      unfold fieldOk at hfo
      rwa [if_neg (by decide), if_pos rfl] at hfo
    cases v with
    | arr es =>
      obtain ⟨l, hl⟩ := decodeAll_cell_ok es (by simpa [isCellsJson] using hcv)
      exact ⟨l, by simp [decodeCells, hL, hl]⟩
    | null => exact ⟨[], by simp [decodeCells, hL]⟩
    | bool b => simp [isCellsJson] at hcv
    | str s => simp [isCellsJson] at hcv
    | num n => simp [isCellsJson] at hcv
    | obj fs => simp [isCellsJson] at hcv

theorem decodeCoords_ok (fields : List (String × Json))
    (hok : ∀ p ∈ fields, fieldOk (foldStr (Prod.fst p)) (Prod.snd p) = true) :
    ∃ l, decodeCoords fields = .ok l := by
  cases hL : lookupField fields "coordinates" with
  | none => exact ⟨[], by simp [decodeCoords, hL]⟩
  | some v =>
    obtain ⟨k, hmem, hlow⟩ := lookupField_mem fields "coordinates" v hL
    have hfo : fieldOk (foldStr "coordinates") v = true := by
      have := hok (k, v) hmem
      rwa [hlow] at this
    have hcv : isCoordsJson v = true := by
      unfold fieldOk at hfo
      rwa [if_neg (by decide), if_neg (by decide), if_pos rfl] at hfo
    cases v with
    | arr es =>
      obtain ⟨l, hl⟩ := decodeAll_coordRow_ok es (by simpa [isCoordsJson] using hcv)
      exact ⟨l, by simp [decodeCoords, hL, hl]⟩
    | null => exact ⟨[], by simp [decodeCoords, hL]⟩
    | bool b => simp [isCoordsJson] at hcv
    | str s => simp [isCoordsJson] at hcv
    | num n => simp [isCoordsJson] at hcv
    | obj fs => simp [isCoordsJson] at hcv

theorem decodeResponse_obj_ok (fields : List (String × Json))
    (hok : ∀ p ∈ fields, fieldOk (foldStr (Prod.fst p)) (Prod.snd p) = true) :
    ∃ r : Response, decodeResponse (.obj fields) = .ok r ∧
      (lookupField fields "answer" = none → r.answer = "") ∧
      (lookupField fields "coordinates" = none → r.coordinates = []) ∧
      (lookupField fields "cells" = none → r.cells = []) ∧
      (lookupField fields "aggregator" = none → r.aggregator = "") := by
  obtain ⟨a, ha⟩ := decodeStr_ok fields "answer" (Or.inl rfl) hok
  obtain ⟨c, hc⟩ := decodeCoords_ok fields hok
  obtain ⟨ce, hce⟩ := decodeCells_ok fields hok
  obtain ⟨ag, hag⟩ := decodeStr_ok fields "aggregator" (Or.inr rfl) hok
  refine ⟨⟨a, c, ce, ag⟩, ?_, ?_, ?_, ?_, ?_⟩
  · simp only [decodeResponse, ha, hc, hce, hag]
    rfl
  · intro hnone
    have : decodeStr fields "answer" = .ok "" := by simp [decodeStr, hnone]
    rw [this] at ha
    simpa using ha.symm
  · intro hnone
    have : decodeCoords fields = .ok [] := by simp [decodeCoords, hnone]
    rw [this] at hc
    simpa using hc.symm
  · intro hnone
    have : decodeCells fields = .ok [] := by simp [decodeCells, hnone]
    rw [this] at hce
    simpa using hce.symm
  · intro hnone
    have : decodeStr fields "aggregator" = .ok "" := by simp [decodeStr, hnone]
    rw [this] at hag
    simpa using hag.symm

/-- Both components of the instrumented connector, on an `Inputs`
payload, are determined by the transport's answer to the one built
request; in particular exactly one request is dispatched. -/
theorem connectAIModelTr_log (t : Transport) (i : Inputs) (token : String) :
    (connectAIModelTr t (.inputs i) token).2 = [buildRequest i token] := by
  simp only [connectAIModelTr]
  cases ht : t (buildRequest i token) with
  | failure cause => simp
  | success resp =>
    obtain ⟨status, body⟩ := resp
    by_cases hs : status ≠ 200
    · simp [hs]
    · cases body with
      | malformed raw => simp [hs]
      | json v =>
        cases hd : decodeResponse v with
        | error msg => simp [hs, hd]
        | ok r => simp [hs, hd]

/-- C5: for every response whose status is not 200, `ConnectAIModel`
returns the backend error carrying that status, and never decodes the
body — the outcome is identical for every body. -/
theorem connectAIModel_non_success_status (i : Inputs) (token : String)
    (status : Nat) (hstatus : status ≠ 200) (body₁ body₂ : HttpBody) :
    ConnectAIModel (fun _ => .success ⟨status, body₁⟩) (.inputs i) token =
      (Response.zero, some (ConnError.backendError status)) ∧
    ConnectAIModel (fun _ => .success ⟨status, body₁⟩) (.inputs i) token =
      ConnectAIModel (fun _ => .success ⟨status, body₂⟩) (.inputs i) token := by
  constructor
  · simp [ConnectAIModel, connectAIModelTr, hstatus]
  · simp [ConnectAIModel, connectAIModelTr, hstatus]

theorem connectAIModel_non_success_status_witness :
    ConnectAIModel (fun _ => HttpResult.success ⟨500, HttpBody.json Json.null⟩)
      (Payload.inputs ⟨[], ""⟩) "" =
      (Response.zero, some (ConnError.backendError 500)) :=
  (connectAIModel_non_success_status ⟨[], ""⟩ "" 500 (by decide)
    (HttpBody.json Json.null) (HttpBody.malformed "")).1

/-- C6: a 200 response whose body is a JSON object that is well shaped
for `Response` apart from omitting any of the optional fields decodes
without error, and every omitted field comes back at its zero default. -/
theorem connectAIModel_optional_fields (i : Inputs) (token : String)
    (fields : List (String × Json))
    (hok : ∀ p ∈ fields, fieldOk (foldStr (Prod.fst p)) (Prod.snd p) = true) :
    (ConnectAIModel (fun _ => .success ⟨200, .json (.obj fields)⟩)
        (.inputs i) token).2 = none ∧
    ((∀ p ∈ fields, foldStr (Prod.fst p) ≠ foldStr "answer") →
      (ConnectAIModel (fun _ => .success ⟨200, .json (.obj fields)⟩)
        (.inputs i) token).1.answer = "") ∧
    ((∀ p ∈ fields, foldStr (Prod.fst p) ≠ foldStr "coordinates") →
      (ConnectAIModel (fun _ => .success ⟨200, .json (.obj fields)⟩)
        (.inputs i) token).1.coordinates = []) ∧
    ((∀ p ∈ fields, foldStr (Prod.fst p) ≠ foldStr "cells") →
      (ConnectAIModel (fun _ => .success ⟨200, .json (.obj fields)⟩)
        (.inputs i) token).1.cells = []) ∧
    ((∀ p ∈ fields, foldStr (Prod.fst p) ≠ foldStr "aggregator") →
      (ConnectAIModel (fun _ => .success ⟨200, .json (.obj fields)⟩)
        (.inputs i) token).1.aggregator = "") := by
  obtain ⟨r, hr, hda, hdc, hdce, hdag⟩ := decodeResponse_obj_ok fields hok
  have hcall : ConnectAIModel (fun _ => .success ⟨200, .json (.obj fields)⟩)
      (.inputs i) token = (r, none) := by
    simp [ConnectAIModel, connectAIModelTr, hr]
  rw [hcall]
  refine ⟨rfl, ?_, ?_, ?_, ?_⟩
  · intro habs
    exact hda (lookupField_none "answer" fields habs)
  · intro habs
    exact hdc (lookupField_none "coordinates" fields habs)
  · intro habs
    exact hdce (lookupField_none "cells" fields habs)
  · intro habs
    exact hdag (lookupField_none "aggregator" fields habs)

theorem connectAIModel_optional_fields_witness :
    (ConnectAIModel (fun _ => HttpResult.success ⟨200, HttpBody.json (Json.obj [])⟩)
      (Payload.inputs ⟨[], ""⟩) "tok").2 = none ∧
    (ConnectAIModel (fun _ => HttpResult.success ⟨200, HttpBody.json (Json.obj [])⟩)
      (Payload.inputs ⟨[], ""⟩) "tok").1.answer = "" ∧
    (ConnectAIModel (fun _ => HttpResult.success ⟨200, HttpBody.json (Json.obj [])⟩)
      (Payload.inputs ⟨[], ""⟩) "tok").1.coordinates = [] ∧
    (ConnectAIModel (fun _ => HttpResult.success ⟨200, HttpBody.json (Json.obj [])⟩)
      (Payload.inputs ⟨[], ""⟩) "tok").1.cells = [] ∧
    (ConnectAIModel (fun _ => HttpResult.success ⟨200, HttpBody.json (Json.obj [])⟩)
      (Payload.inputs ⟨[], ""⟩) "tok").1.aggregator = "" :=
  ⟨(connectAIModel_optional_fields ⟨[], ""⟩ "tok" [] (by simp)).1,
   (connectAIModel_optional_fields ⟨[], ""⟩ "tok" [] (by simp)).2.1 (by simp),
   (connectAIModel_optional_fields ⟨[], ""⟩ "tok" [] (by simp)).2.2.1 (by simp),
   (connectAIModel_optional_fields ⟨[], ""⟩ "tok" [] (by simp)).2.2.2.1 (by simp),
   (connectAIModel_optional_fields ⟨[], ""⟩ "tok" [] (by simp)).2.2.2.2 (by simp)⟩

/-- C7: a payload that is not an `Inputs` value makes `ConnectAIModel`
fail immediately with the invalid-payload error: no request is
dispatched (the instrumentation log is empty), and the outcome does not
depend on the transport at all — so nothing was serialised or sent. -/
theorem connectAIModel_invalid_payload (desc : String) (token : String) (t : Transport) :
    connectAIModelTr t (.other desc) token =
      ((Response.zero, some ConnError.invalidPayload), []) ∧
    ∀ t' : Transport,
      ConnectAIModel t (.other desc) token = ConnectAIModel t' (.other desc) token :=
  ⟨rfl, fun _ => rfl⟩

/-- C9: every request the transport receives from `ConnectAIModel`
carries exactly the headers `Authorization: Bearer <token>` and
`Content-Type: application/json` (a POST to the fixed endpoint), and an
empty credential yields the literal header value `Bearer ` rather than
a substitute. -/
theorem connectAIModel_request_headers (i : Inputs) (token : String) (t : Transport) :
    (∀ req ∈ (connectAIModelTr t (.inputs i) token).2,
      req.headers = [("Authorization", "Bearer " ++ token),
                     ("Content-Type", "application/json")] ∧
      req.method = "POST" ∧ req.url = apiURL) ∧
    (buildRequest i "").headers =
      [("Authorization", "Bearer "), ("Content-Type", "application/json")] := by
  constructor
  · intro req hreq
    rw [connectAIModelTr_log] at hreq
    simp only [List.mem_singleton] at hreq
    subst hreq
    exact ⟨rfl, rfl, rfl⟩
  · rfl

theorem connectAIModel_request_headers_witness :
    (buildRequest ⟨[], "q"⟩ "tok").headers =
      [("Authorization", "Bearer " ++ "tok"), ("Content-Type", "application/json")] ∧
    (buildRequest ⟨[], "q"⟩ "tok").method = "POST" ∧
    (buildRequest ⟨[], "q"⟩ "tok").url = apiURL :=
  (connectAIModel_request_headers ⟨[], "q"⟩ "tok" (fun _ => HttpResult.failure "down")).1
    (buildRequest ⟨[], "q"⟩ "tok")
    (by rw [connectAIModelTr_log]; exact List.mem_singleton.mpr rfl)

/-- C10: whenever `ConnectAIModel` returns an error, the `Response` it
returns alongside is the zero value — every error path of the Go code
returns the empty `Response` literal, never a partially filled one. -/
theorem connectAIModel_error_zero_response (t : Transport) (p : Payload)
    (token : String) (e : ConnError)
    (herr : (ConnectAIModel t p token).2 = some e) :
    (ConnectAIModel t p token).1 = Response.zero := by
  cases p with
  | other desc => rfl
  | inputs i =>
    cases ht : t (buildRequest i token) with
    | failure cause => simp [ConnectAIModel, connectAIModelTr, ht]
    | success resp =>
      obtain ⟨status, body⟩ := resp
      by_cases hs : status ≠ 200
      · simp [ConnectAIModel, connectAIModelTr, ht, hs]
      · cases body with
        | malformed raw => simp [ConnectAIModel, connectAIModelTr, ht, hs]
        | json v =>
          cases hd : decodeResponse v with
          | error msg => simp [ConnectAIModel, connectAIModelTr, ht, hs, hd]
          | ok r =>
            rw [show (ConnectAIModel t (.inputs i) token).2 = none from by
              simp [ConnectAIModel, connectAIModelTr, ht, hs, hd]] at herr
            exact absurd herr (by simp)

theorem connectAIModel_error_zero_response_witness :
    (ConnectAIModel (fun _ => HttpResult.failure "down") (Payload.other "bad") "").1 =
      Response.zero :=
  connectAIModel_error_zero_response (fun _ => HttpResult.failure "down")
    (Payload.other "bad") "" ConnError.invalidPayload rfl
